import Mathlib

/-!
Verification of the concurrent ordered Kafka fetcher (package `ingest`):
shallow embedding of `fetchWant` arithmetic, the error classifier
`handleKafkaFetchErr`, the `PollFetches` ordering/deduplication step, the
worker attempt body of `concurrentFetchers.run`, and the dispatch decision of
`concurrentFetchers.start`.

Modelling conventions:
- Go `int`/`int64` are modelled as `Int`; two's-complement wrap-around is made
  explicit (`wrap64`) exactly where the source can overflow (the byte-estimate
  product in `expectedBytes`).
- Go float64 arithmetic is modelled by exact rational arithmetic
  (`1.05 = 21/20`, `0.8 = 4/5`); conversions `int64(f)`/`int(f)` truncate
  toward zero (`Int.tdiv`, `goTrunc`). The out-of-range float-to-int64
  conversion (implementation-dependent in Go) is modelled as wrapping; the
  clamping in `MaxBytes` makes the verified bounds insensitive to this choice.
- Side effects of the classifier (backoff waits, metadata refreshes) are
  modelled as boolean outputs; the partition-start offset reader is modelled
  by the value its `CachedOffset()` call returns.
-/

namespace IngestFetcher

/-- Kafka record as used by the fetcher: its offset in the partition and the
length of its value (`len(record.Value)`). -/
structure KRecord where
  offset : Int
  valueLen : Nat
deriving Repr, DecidableEq

/-- fetchWant represents a range of offsets to fetch (startOffset inclusive,
endOffset exclusive) together with the sizing parameters. The result channel
is not part of the pure model. -/
structure fetchWant where
  startOffset : Int
  endOffset : Int
  estimatedBytesPerRecord : Int
  targetMaxBytes : Int
deriving Repr, DecidableEq

/-- Two's-complement wrap-around to the signed 64-bit range, used where the Go
source performs `int64` arithmetic that can overflow. -/
def wrap64 (x : Int) : Int := (x + 2 ^ 63) % 2 ^ 64 - 2 ^ 63

/-- fetchWantFrom mirrors `fetchWantFrom(offset, targetMaxBytes,
estimatedBytesPerRecord)`: the estimate is clamped to at least 1, the number
of records is estimated as `max(1, targetMaxBytes/estimatedBytesPerRecord)`
(Go integer division truncates toward zero), and the want spans
`[offset, offset+estimatedNumberOfRecords)`. -/
def fetchWantFrom (offset targetMaxBytes estimatedBytesPerRecord : Int) : fetchWant :=
  let estimatedBytesPerRecord' := max estimatedBytesPerRecord 1
  let estimatedNumberOfRecords := max 1 (Int.tdiv targetMaxBytes estimatedBytesPerRecord')
  { startOffset := offset
    endOffset := offset + estimatedNumberOfRecords
    targetMaxBytes := targetMaxBytes
    estimatedBytesPerRecord := estimatedBytesPerRecord' }

/-- Next returns the fetchWant for the next records starting from the last
known offset, keeping the current (unclamped) bytes-per-record estimate. -/
def fetchWant.Next (w : fetchWant) : fetchWant :=
  let n := fetchWantFrom w.endOffset w.targetMaxBytes w.estimatedBytesPerRecord
  { n with estimatedBytesPerRecord := w.estimatedBytesPerRecord }

/-- expectedBytes returns how many bytes are needed to accommodate the range
of offsets using estimatedBytesPerRecord. Mirrors
`int64(1.05 * float64(int64(w.estimatedBytesPerRecord)*(w.endOffset-w.startOffset)))`:
the `int64` product wraps; the float64 multiplication by the over-fetch factor
1.05 is modelled exactly as `21/20` with truncation toward zero; the final
(possibly out-of-range) conversion back to `int64` is modelled as wrapping. -/
def fetchWant.expectedBytes (w : fetchWant) : Int :=
  wrap64 (Int.tdiv (21 * wrap64 (w.estimatedBytesPerRecord * (w.endOffset - w.startOffset))) 20)

/-- MaxBytes returns the maximum number of bytes fetched in a single request:
capped at `math.MaxInt32` (also when the unclamped estimate overflowed or went
negative) and floored at 1,000,000 bytes. -/
def fetchWant.MaxBytes (w : fetchWant) : Int :=
  if 2 ^ 31 - 1 < w.expectedBytes ∨ w.expectedBytes < 0 then 2 ^ 31 - 1
  else max 1000000 w.expectedBytes

/-- goTrunc models Go's conversion of a float to an integer type: truncation
toward zero (for a rational in reduced form, `num tdiv den`). -/
def goTrunc (q : ℚ) : Int := q.num.tdiv (q.den : Int)

/-- currentEstimateWeight is the smoothing constant 0.8 of
`UpdateBytesPerRecord` (exact rational in this model). -/
def currentEstimateWeight : ℚ := 4 / 5

/-- UpdateBytesPerRecord mirrors `fetchWant.UpdateBytesPerRecord`: the
estimate is replaced by the exponentially smoothed
`0.8*e + 0.2*(lastFetchBytes/lastFetchNumberOfRecords)`, truncated to an
integer; no other field changes. Float64 arithmetic is modelled exactly over
the rationals. -/
def fetchWant.UpdateBytesPerRecord (w : fetchWant) (lastFetchBytes lastFetchNumberOfRecords : Int) : fetchWant :=
  let actualBytesPerRecord : ℚ := (lastFetchBytes : ℚ) / (lastFetchNumberOfRecords : ℚ)
  { w with estimatedBytesPerRecord :=
      goTrunc (currentEstimateWeight * (w.estimatedBytesPerRecord : ℚ)
        + (1 - currentEstimateWeight) * actualBytesPerRecord) }

/-- Errors distinguished by `handleKafkaFetchErr`. The `errors.Is` cases of
the Go switch become constructors; errors recognised only by substring match
on their message are modelled by `other` carrying the message text. -/
inductive FetchErr where
  | offsetOutOfRange
  | topicAuthorizationFailed
  | unknownTopicOrPartition
  | unsupportedCompressionType
  | unsupportedVersion
  | kafkaStorageError
  | unknownTopicID
  | offsetMovedToTieredStorage
  | notLeaderForPartition
  | replicaNotAvailable
  | unknownLeaderEpoch
  | fencedLeaderEpoch
  | leaderNotAvailable
  | brokerNotAvailable
  | unknownPartitionLeader
  | firstReadEOF
  | other (text : String)
deriving Repr, DecidableEq

/-- Outcome of the error classifier: the (possibly adjusted) fetchWant, and
whether the call invoked `longBackoff.Wait()` and/or a forced metadata
refresh. -/
structure FetchErrOutcome where
  fw : fetchWant
  backoffWaited : Bool
  refreshedMetadata : Bool
deriving Repr, DecidableEq

/-- unknownBroker duplicates the franz-go constant matched by substring. -/
def unknownBroker : String := "unknown broker"

/-- chosenBrokerDied duplicates the franz-go constant matched by substring. -/
def chosenBrokerDied : String :=
  "the internal broker struct chosen to issue this request has died--either the broker id is migrating or no longer exists"

/-- listContainsSub decides whether `pat` occurs as a contiguous sublist of
`s` (models Go `strings.Contains` over the characters). -/
def listContainsSub : List Char → List Char → Bool
  | [], pat => pat.isEmpty
  | c :: rest, pat => pat.isPrefixOf (c :: rest) || listContainsSub rest pat

/-- containsSub models `strings.Contains(s, pat)`. -/
def containsSub (s pat : String) : Bool := listContainsSub s.data pat.data

/-- handleKafkaFetchErr mirrors the Go switch: it returns the (possibly
adjusted) fetchWant and records whether a backoff wait and/or a metadata
refresh happened. `partitionStartOffset` stands for the result of
`partitionStartOffset.CachedOffset()` (`Except.error` when that lookup
failed). -/
def handleKafkaFetchErr (err : Option FetchErr) (fw : fetchWant)
    (partitionStartOffset : Except Unit Int) : FetchErrOutcome :=
  match err with
  | none => ⟨fw, false, false⟩
  | some .offsetOutOfRange =>
    match partitionStartOffset with
    | .error _ => ⟨fw, false, false⟩
    | .ok partitionStart =>
      if fw.startOffset < partitionStart then
        if partitionStart ≥ fw.endOffset then
          ⟨{ fw with startOffset := fw.endOffset }, false, false⟩
        else
          ⟨{ fw with startOffset := partitionStart }, false, false⟩
      else ⟨fw, false, false⟩
  | some .topicAuthorizationFailed => ⟨fw, true, false⟩
  | some .unknownTopicOrPartition => ⟨fw, true, false⟩
  | some .unsupportedCompressionType => ⟨fw, true, false⟩
  | some .unsupportedVersion => ⟨fw, true, false⟩
  | some .kafkaStorageError => ⟨fw, true, false⟩
  | some .unknownTopicID => ⟨fw, true, false⟩
  | some .offsetMovedToTieredStorage => ⟨fw, true, false⟩
  | some .notLeaderForPartition => ⟨fw, true, true⟩
  | some .replicaNotAvailable => ⟨fw, true, true⟩
  | some .unknownLeaderEpoch => ⟨fw, true, true⟩
  | some .fencedLeaderEpoch => ⟨fw, true, true⟩
  | some .leaderNotAvailable => ⟨fw, true, true⟩
  | some .brokerNotAvailable => ⟨fw, true, true⟩
  | some .unknownPartitionLeader => ⟨fw, true, true⟩
  | some .firstReadEOF => ⟨fw, true, false⟩
  | some (.other s) =>
    if containsSub s unknownBroker then ⟨fw, false, false⟩
    else if containsSub s chosenBrokerDied then ⟨fw, false, false⟩
    else if containsSub s "use of closed network connection" then ⟨fw, false, false⟩
    else if containsSub s "i/o timeout" then ⟨fw, true, true⟩
    else ⟨fw, true, false⟩

/-- recordIndexAfterOffset mirrors the Go loop: the index of the first record
whose offset is strictly greater than `offset`, or the length of the list
when there is none. -/
def recordIndexAfterOffset : List KRecord → Int → Nat
  | [], _ => 0
  | r :: rest, offset =>
    if offset < r.offset then 0 else recordIndexAfterOffset rest offset + 1

/-- pollFetchesStep models the body of `concurrentFetchers.PollFetches` once
a fetch result with the given records arrives on `orderedFetches`: the prefix
up to `recordIndexAfterOffset` is dropped, the remaining records are returned
unchanged, and `lastReturnedRecord` advances to the offset of the last
returned record (unchanged when nothing is returned). Telemetry and the
buffered-records counter update are omitted. -/
def pollFetchesStep (lastReturnedRecord : Int) (records : List KRecord) :
    List KRecord × Int :=
  let out := records.drop (recordIndexAfterOffset records lastReturnedRecord)
  match out.getLast? with
  | some r => (out, r.offset)
  | none => (out, lastReturnedRecord)

/-- fetchResult models the fields of the Go `fetchResult` that the pure logic
reads: the parsed records, the partition error, the accounted fetched bytes
and the high watermark of the response. -/
structure fetchResult where
  records : List KRecord
  err : Option FetchErr
  fetchedBytes : Int
  highWatermark : Int
deriving Repr, DecidableEq

/-- Merge merges `fr` with an older fetchResult: older records are prepended,
fetched bytes are summed, and the newer result's remaining fields win. -/
def fetchResult.Merge (fr older : fetchResult) : fetchResult :=
  { fr with
    records := older.records ++ fr.records
    fetchedBytes := fr.fetchedBytes + older.fetchedBytes }

/-- newEmptyFetchResult mirrors the Go helper: no records, zero fetched
bytes, and the given (possibly absent) error; the zero `kgo.FetchPartition`
has a zero high watermark. -/
def newEmptyFetchResult (err : Option FetchErr) : fetchResult :=
  { records := [], err := err, fetchedBytes := 0, highWatermark := 0 }

/-- Outcome of the network send inside `fetchSingle`: the request context was
cancelled, the request failed with a transport error, or a response was
received and parsed into a fetchResult (`parseFetchResponse`). -/
inductive SendOutcome where
  | canceled
  | failed
  | ok (fr : fetchResult)
deriving Repr, DecidableEq

/-- fetchSingle models the control flow of `concurrentFetchers.fetchSingle`:
`leaderErr` stands for a failure of `PartitionLeader`, `(leaderID,
leaderEpoch)` for its result, and `send` for the outcome of
`RequestWith`. A cancellation during the send yields an empty, error-free
result. -/
def fetchSingle (leaderErr : Bool) (leaderID leaderEpoch : Int)
    (send : SendOutcome) : fetchResult :=
  if leaderErr then newEmptyFetchResult (some (.other "finding leader for partition"))
  else if leaderID = -1 ∧ leaderEpoch = -1 then
    newEmptyFetchResult (some .unknownPartitionLeader)
  else
    match send with
    | .canceled => newEmptyFetchResult none
    | .failed => newEmptyFetchResult (some (.other "fetching from kafka"))
    | .ok fr => fr

/-- workerAdvanceStartOffset models
`w.startOffset = f.Records[len(f.Records)-1].Offset + 1` in the worker loop. -/
def workerAdvanceStartOffset (w : fetchWant) (lastRecordOffset : Int) : fetchWant :=
  { w with startOffset := lastRecordOffset + 1 }

/-- Result of one iteration of the worker loop body: the updated want, the
result offered on the want's channel this iteration (none when the attempt
looped without publishing), and the arguments passed to
`UpdateBytesPerRecord` (none when the estimator was not consulted). -/
structure WorkerAttemptOut where
  w : fetchWant
  publish : Option fetchResult
  estimatorUpdate : Option (Int × Nat)
deriving Repr, DecidableEq

/-- workerAttempt models one iteration of the inner loop of
`concurrentFetchers.run`: the freshly fetched result is merged with the
residual unsent result of the previous attempt, an error adjusts the want via
the classifier, and only when the merged record set is non-empty does the
worker advance the offset, update the byte estimator, and offer the merged
result on the want's channel. -/
def workerAttempt (w : fetchWant) (previousResult fetched : fetchResult)
    (partitionStartOffset : Except Unit Int) : WorkerAttemptOut :=
  let f := fetched.Merge previousResult
  let w1 := match f.err with
    | some e => (handleKafkaFetchErr (some e) w partitionStartOffset).fw
    | none => w
  match f.records.getLast? with
  | none => { w := w1, publish := none, estimatorUpdate := none }
  | some lastRec =>
    let w2 := workerAdvanceStartOffset w1 lastRec.offset
    { w := w2.UpdateBytesPerRecord f.fetchedBytes (f.records.length : Int)
      publish := some f
      estimatorUpdate := some (f.fetchedBytes, f.records.length) }

/-- dispatcherDrainUpdate models the estimator update the dispatcher performs
on a drained result: `nextFetch.UpdateBytesPerRecord(result.fetchedBytes,
len(result.Records))`. -/
def dispatcherDrainUpdate (nextFetch : fetchWant) (result : fetchResult) : fetchWant :=
  nextFetch.UpdateBytesPerRecord result.fetchedBytes (result.records.length : Int)

/-- Dispatcher-loop state relevant to the dispatch decision: the next want to
hand out, the FIFO of inflight wants, and the inflight-bytes counter. -/
structure DispatcherState where
  nextFetch : fetchWant
  inflight : List fetchWant
  inflightBytes : Int
deriving Repr, DecidableEq

/-- dispatchAllowed mirrors the guard in `concurrentFetchers.start`: dispatch
when nothing is inflight, or when the inflight bytes plus the next want's
MaxBytes would not exceed the buffered-bytes limit and the next want's start
offset does not exceed the high watermark. -/
def dispatchAllowed (st : DispatcherState) (maxBufferedBytesLimit highWatermark : Int) : Bool :=
  decide (st.inflight.length = 0) ||
    (!decide (maxBufferedBytesLimit < st.inflightBytes + st.nextFetch.MaxBytes) &&
      decide (st.nextFetch.startOffset ≤ highWatermark))

/-- dispatchStep models the `dispatchNextWant <- nextFetch` case of the
select: the want is appended to the inflight FIFO (adding its MaxBytes to the
inflight-bytes counter) and `nextFetch` advances to its `Next()` want. -/
def dispatchStep (st : DispatcherState) : DispatcherState :=
  { nextFetch := st.nextFetch.Next
    inflight := st.inflight ++ [st.nextFetch]
    inflightBytes := st.inflightBytes + st.nextFetch.MaxBytes }

/-- fwDemo is a concrete fetchWant used by the concrete witness instances. -/
def fwDemo : fetchWant :=
  { startOffset := 0, endOffset := 10, estimatedBytesPerRecord := 10, targetMaxBytes := 1000 }

/-- demoBatch is a concrete sorted record batch used by witness instances. -/
def demoBatch : List KRecord := [⟨3, 1⟩, ⟨6, 2⟩, ⟨9, 3⟩]

/-- mergedDemo is the merged fetch result produced by `workerAttempt` on the
concrete witness input below. -/
def mergedDemo : fetchResult :=
  { records := [⟨5, 10⟩], err := none, fetchedBytes := 100, highWatermark := 5 }

/-- Dropping up to `recordIndexAfterOffset` drops exactly the leading run of
records whose offset is at most `off`. -/
theorem drop_recordIndexAfterOffset (off : Int) (l : List KRecord) :
    l.drop (recordIndexAfterOffset l off) = l.dropWhile (fun r => decide (r.offset ≤ off)) := by
  induction l with
  | nil => rfl
  | cons r rest ih =>
    by_cases h : off < r.offset
    · simp [recordIndexAfterOffset, h, List.dropWhile_cons, not_le.mpr h]
    · simp [recordIndexAfterOffset, h, List.dropWhile_cons, not_lt.mp h, ih]

/-- On a batch with strictly increasing offsets, dropping the leading run of
records with offset at most `off` removes exactly every record with offset at
most `off`. -/
theorem dropWhile_le_eq_filter (off : Int) (l : List KRecord)
    (hl : l.Pairwise (fun a b => a.offset < b.offset)) :
    l.dropWhile (fun r => decide (r.offset ≤ off)) = l.filter (fun r => decide (off < r.offset)) := by
  induction hl with
  | nil => rfl
  | @cons r rest hr _ ih =>
    by_cases h : off < r.offset
    · have hall : ∀ b ∈ rest, off < b.offset := fun b hb => lt_trans h (hr b hb)
      have hrest : rest.filter (fun r => decide (off < r.offset)) = rest :=
        List.filter_eq_self.mpr fun a ha => decide_eq_true (hall a ha)
      simp [List.dropWhile_cons, List.filter_cons, h, not_le.mpr h, hrest]
    · simp [List.dropWhile_cons, List.filter_cons, h, not_lt.mp h, ih]

/-- The records returned by a poll step are the drop of the computed index. -/
theorem pollFetchesStep_fst (off : Int) (l : List KRecord) :
    (pollFetchesStep off l).1 = l.drop (recordIndexAfterOffset l off) := by
  unfold pollFetchesStep
  cases h : (l.drop (recordIndexAfterOffset l off)).getLast? <;> simp [h]

/-- The advanced last-returned offset of a poll step is the offset of the last
returned record, or the previous value when nothing is returned. -/
theorem pollFetchesStep_snd (off : Int) (l : List KRecord) :
    (pollFetchesStep off l).2 =
      ((l.drop (recordIndexAfterOffset l off)).getLast?.map KRecord.offset).getD off := by
  unfold pollFetchesStep
  cases h : (l.drop (recordIndexAfterOffset l off)).getLast? <;> simp [h]

/-- Claim C1: on a batch whose offsets are strictly increasing, the poll step
returns precisely the records with offset above the last returned one, in
their original order (so delivered offsets are strictly increasing with no
duplicates and none is at or below the last delivered offset), and the
last-returned-record marker advances to the offset of the last returned
record (staying unchanged when every record is dropped). -/
theorem pollFetches_strictly_increasing_no_duplicates (off : Int) (l : List KRecord)
    (hsort : l.Pairwise (fun a b => a.offset < b.offset)) :
    (pollFetchesStep off l).1 = l.filter (fun r => decide (off < r.offset)) ∧
    (pollFetchesStep off l).1.Pairwise (fun a b => a.offset < b.offset) ∧
    (∀ r ∈ (pollFetchesStep off l).1, off < r.offset) ∧
    (∀ r, (pollFetchesStep off l).1.getLast? = some r → (pollFetchesStep off l).2 = r.offset) ∧
    ((pollFetchesStep off l).1 = [] → (pollFetchesStep off l).2 = off) := by
  have hfst : (pollFetchesStep off l).1 = l.filter (fun r => decide (off < r.offset)) := by
    rw [pollFetchesStep_fst, drop_recordIndexAfterOffset, dropWhile_le_eq_filter off l hsort]
  refine ⟨hfst, ?_, ?_, ?_, ?_⟩
  · rw [hfst]; exact hsort.filter _
  · intro r hr
    rw [hfst] at hr
    exact of_decide_eq_true (List.mem_filter.mp hr).2
  · intro r hr
    rw [pollFetchesStep_fst] at hr
    rw [pollFetchesStep_snd, hr]
    rfl
  · intro hnil
    rw [pollFetchesStep_fst] at hnil
    rw [pollFetchesStep_snd, hnil]
    rfl

/-- Witness for C1 at a concrete sorted batch. -/
theorem pollFetches_strictly_increasing_no_duplicates_witness :
    demoBatch.Pairwise (fun a b => a.offset < b.offset) ∧
    (pollFetchesStep 5 demoBatch).1 = demoBatch.filter (fun r => decide ((5 : Int) < r.offset)) :=
  ⟨by decide, (pollFetches_strictly_increasing_no_duplicates 5 demoBatch (by decide)).1⟩

/-- Claim C2, counterexample: the worker's offset advance can push
`startOffset` strictly past `endOffset`. A want created by `fetchWantFrom 0
1000000 10000` spans `[0, 100)`; nothing truncates a fetch response at the
want's `endOffset`, so a response whose last record has offset 150 advances
`startOffset` to 151 > 100, violating `startOffset ≤ endOffset`. -/
theorem workerAdvance_can_exceed_endOffset :
    (workerAdvanceStartOffset (fetchWantFrom 0 1000000 10000) 150).endOffset <
      (workerAdvanceStartOffset (fetchWantFrom 0 1000000 10000) 150).startOffset := by decide

/-- Claim C2, amended: `startOffset ≤ endOffset` holds on creation by
`fetchWantFrom`, is preserved by every adjustment `handleKafkaFetchErr`
makes, and is preserved by the worker's advance to `lastRecordOffset + 1`
provided the last received record's offset lies below `endOffset` (a fetch
overshooting the want's end may leave `startOffset > endOffset`, upon which
the want is treated as complete). -/
theorem fetchWant_startOffset_le_endOffset :
    (∀ offset targetMaxBytes estimatedBytesPerRecord : Int,
      (fetchWantFrom offset targetMaxBytes estimatedBytesPerRecord).startOffset ≤
        (fetchWantFrom offset targetMaxBytes estimatedBytesPerRecord).endOffset) ∧
    (∀ (err : Option FetchErr) (fw : fetchWant) (pso : Except Unit Int),
      fw.startOffset ≤ fw.endOffset →
      (handleKafkaFetchErr err fw pso).fw.startOffset ≤ (handleKafkaFetchErr err fw pso).fw.endOffset) ∧
    (∀ (fw : fetchWant) (lastRecordOffset : Int),
      lastRecordOffset < fw.endOffset →
      (workerAdvanceStartOffset fw lastRecordOffset).startOffset ≤
        (workerAdvanceStartOffset fw lastRecordOffset).endOffset) := by
  refine ⟨?_, ?_, ?_⟩
  · intro o t e
    show o ≤ o + max 1 (Int.tdiv t (max e 1))
    have h1 : (1 : Int) ≤ max 1 (Int.tdiv t (max e 1)) := le_max_left _ _
    omega
  · intro err fw pso h
    cases err with
    | none => exact h
    | some e =>
      cases e
      case offsetOutOfRange =>
        cases pso with
        | error u => exact h
        | ok p =>
          by_cases h1 : fw.startOffset < p
          · by_cases h2 : p ≥ fw.endOffset
            · simp [handleKafkaFetchErr, h1, h2]
            · simp [handleKafkaFetchErr, h1, h2]
              omega
          · simp [handleKafkaFetchErr, h1]
            exact h
      case other s =>
        simp only [handleKafkaFetchErr]
        split_ifs <;> exact h
      all_goals exact h
  · intro fw lo h
    show lo + 1 ≤ fw.endOffset
    omega

/-- Witness for the amended C2 at concrete inputs. -/
theorem fetchWant_startOffset_le_endOffset_witness :
    ((fetchWantFrom 0 1000000 10000).startOffset ≤ (fetchWantFrom 0 1000000 10000).endOffset) ∧
    (fwDemo.startOffset ≤ fwDemo.endOffset ∧
      (handleKafkaFetchErr (some .offsetOutOfRange) fwDemo (.ok 3)).fw.startOffset ≤
        (handleKafkaFetchErr (some .offsetOutOfRange) fwDemo (.ok 3)).fw.endOffset) ∧
    ((7 : Int) < fwDemo.endOffset ∧
      (workerAdvanceStartOffset fwDemo 7).startOffset ≤
        (workerAdvanceStartOffset fwDemo 7).endOffset) :=
  ⟨fetchWant_startOffset_le_endOffset.1 0 1000000 10000,
   ⟨by decide,
    fetchWant_startOffset_le_endOffset.2.1 (some .offsetOutOfRange) fwDemo (.ok 3) (by decide)⟩,
   ⟨by decide, fetchWant_startOffset_le_endOffset.2.2 fwDemo 7 (by decide)⟩⟩

/-- Claim C3: whatever the fields of the fetchWant (including estimates whose
product overflows or goes negative), `MaxBytes()` lies in the closed interval
from 1,000,000 to the signed 32-bit maximum. -/
theorem MaxBytes_in_range (w : fetchWant) :
    1000000 ≤ w.MaxBytes ∧ w.MaxBytes ≤ 2 ^ 31 - 1 := by
  unfold fetchWant.MaxBytes
  split
  · constructor <;> norm_num
  · rename_i h
    push_neg at h
    exact ⟨le_max_left _ _, max_le (by norm_num) h.1⟩

/-- Witness for C3 at a concrete want. -/
theorem MaxBytes_in_range_witness :
    1000000 ≤ fwDemo.MaxBytes ∧ fwDemo.MaxBytes ≤ 2 ^ 31 - 1 :=
  MaxBytes_in_range fwDemo

/-- Claim C4: `UpdateBytesPerRecord` performs the exponential smoothing
`0.8*e + 0.2*(observedBytes/observedRecords)` and touches nothing else: every
field except the estimate is preserved, and a want with estimate 10 updated
with 2000 bytes over 100 records gets estimate exactly 12. -/
theorem UpdateBytesPerRecord_smoothing :
    (∀ (w : fetchWant) (b r : Int),
      (w.UpdateBytesPerRecord b r).startOffset = w.startOffset ∧
      (w.UpdateBytesPerRecord b r).endOffset = w.endOffset ∧
      (w.UpdateBytesPerRecord b r).targetMaxBytes = w.targetMaxBytes) ∧
    (∀ w : fetchWant, w.estimatedBytesPerRecord = 10 →
      w.UpdateBytesPerRecord 2000 100 = { w with estimatedBytesPerRecord := 12 }) := by
  constructor
  · intro w b r
    exact ⟨rfl, rfl, rfl⟩
  · intro w he
    obtain ⟨s, e, eb, t⟩ := w
    simp only at he
    subst he
    simp only [fetchWant.UpdateBytesPerRecord, goTrunc, currentEstimateWeight, fetchWant.mk.injEq]
    norm_num

/-- Witness for C4 at the concrete want with estimate 10. -/
theorem UpdateBytesPerRecord_smoothing_witness :
    fwDemo.estimatedBytesPerRecord = 10 ∧
    fwDemo.UpdateBytesPerRecord 2000 100 = { fwDemo with estimatedBytesPerRecord := 12 } :=
  ⟨rfl, UpdateBytesPerRecord_smoothing.2 fwDemo rfl⟩

/-- Claim C5: on an offset-out-of-range error with a known authoritative
partition start, a want wholly before the start is marked complete
(`startOffset = endOffset`) with no backoff wait; a want only partially
before the start has `startOffset` fast-forwarded to exactly the partition
start with no backoff wait; otherwise the want is returned unchanged. -/
theorem handleOffsetOutOfRange_offset_correction (fw : fetchWant) (partitionStart : Int)
    (hinv : fw.startOffset ≤ fw.endOffset) :
    (fw.endOffset ≤ partitionStart →
      handleKafkaFetchErr (some .offsetOutOfRange) fw (.ok partitionStart) =
        ⟨{ fw with startOffset := fw.endOffset }, false, false⟩) ∧
    (fw.startOffset < partitionStart → partitionStart < fw.endOffset →
      handleKafkaFetchErr (some .offsetOutOfRange) fw (.ok partitionStart) =
        ⟨{ fw with startOffset := partitionStart }, false, false⟩) ∧
    (partitionStart ≤ fw.startOffset →
      handleKafkaFetchErr (some .offsetOutOfRange) fw (.ok partitionStart) =
        ⟨fw, false, false⟩) := by
  refine ⟨?_, ?_, ?_⟩
  · intro h
    by_cases h1 : fw.startOffset < partitionStart
    · simp [handleKafkaFetchErr, h1, le_trans h (le_refl partitionStart), h]
    · have hse : fw.startOffset = fw.endOffset := le_antisymm hinv (by omega)
      simp only [handleKafkaFetchErr, h1, if_false]
      obtain ⟨s, e, eb, t⟩ := fw
      simp only at hse
      simp [hse]
  · intro h1 h2
    simp [handleKafkaFetchErr, h1, not_le.mpr h2]
  · intro h
    simp [handleKafkaFetchErr, not_lt.mpr h]

/-- Witness for C5: the spec scenario, want spanning offsets 0 to 10 with
authoritative start 20, is marked complete with no backoff. -/
theorem handleOffsetOutOfRange_offset_correction_witness :
    fwDemo.startOffset ≤ fwDemo.endOffset ∧ fwDemo.endOffset ≤ 20 ∧
    handleKafkaFetchErr (some .offsetOutOfRange) fwDemo (.ok 20) =
      ⟨{ fwDemo with startOffset := fwDemo.endOffset }, false, false⟩ :=
  ⟨by decide, by decide,
   (handleOffsetOutOfRange_offset_correction fwDemo 20 (by decide)).1 (by decide)⟩

/-- Claim C6, counterexample: the first-read end-of-stream error does invoke
the backoff waiter (`longBackoff.Wait()`), contrary to the claim that it
retries immediately with no backoff; the want is still returned unchanged. -/
theorem firstReadEOF_waits_backoff :
    (handleKafkaFetchErr (some .firstReadEOF) fwDemo (.error ())).backoffWaited = true ∧
    (handleKafkaFetchErr (some .firstReadEOF) fwDemo (.error ())).fw = fwDemo :=
  ⟨rfl, rfl⟩

/-- Claim C6, amended: an error whose text contains the unknown-broker
message, the chosen-broker-died message, or "use of closed network
connection" causes an immediate retry - the want is returned unchanged with
no backoff wait and no metadata refresh - while the first-read end-of-stream
error returns the want unchanged but does wait for the backoff. -/
theorem transient_network_errors_immediate_retry (fw : fetchWant) (pso : Except Unit Int)
    (s : String)
    (h : containsSub s unknownBroker = true ∨ containsSub s chosenBrokerDied = true ∨
      containsSub s "use of closed network connection" = true) :
    handleKafkaFetchErr (some (.other s)) fw pso = ⟨fw, false, false⟩ ∧
    handleKafkaFetchErr (some .firstReadEOF) fw pso = ⟨fw, true, false⟩ := by
  constructor
  · by_cases c1 : containsSub s unknownBroker = true
    · simp [handleKafkaFetchErr, c1]
    · by_cases c2 : containsSub s chosenBrokerDied = true
      · simp [handleKafkaFetchErr, c1, c2]
      · have c3 : containsSub s "use of closed network connection" = true := by
          rcases h with h | h | h
          · exact absurd h c1
          · exact absurd h c2
          · exact h
        simp [handleKafkaFetchErr, c1, c2, c3]
  · rfl

/-- Witness for the amended C6 at a concrete message containing the
unknown-broker text. -/
theorem transient_network_errors_immediate_retry_witness :
    containsSub unknownBroker unknownBroker = true ∧
    handleKafkaFetchErr (some (.other unknownBroker)) fwDemo (.error ()) =
      ⟨fwDemo, false, false⟩ :=
  ⟨by decide,
   (transient_network_errors_immediate_retry fwDemo (.error ()) unknownBroker
     (Or.inl (by decide))).1⟩

/-- Claim C7: the dispatcher offers the next want to workers exactly when the
inflight queue is empty, or the inflight bytes plus the next want's MaxBytes
stay within the buffered-bytes limit and the next want's start offset is at
most the high watermark; a dispatch appends the want to the inflight FIFO
(accounting its MaxBytes) and advances `nextFetch` to its `Next()` want. -/
theorem dispatch_guard_and_step (st : DispatcherState) (limit hwm : Int) :
    (dispatchAllowed st limit hwm = true ↔
      (st.inflight = [] ∨
        (st.inflightBytes + st.nextFetch.MaxBytes ≤ limit ∧
          st.nextFetch.startOffset ≤ hwm))) ∧
    (dispatchStep st).inflight = st.inflight ++ [st.nextFetch] ∧
    (dispatchStep st).nextFetch = st.nextFetch.Next ∧
    (dispatchStep st).inflightBytes = st.inflightBytes + st.nextFetch.MaxBytes := by
  refine ⟨?_, rfl, rfl, rfl⟩
  simp [dispatchAllowed, List.length_eq_zero, not_lt]

/-- Witness for C7 at a concrete dispatcher state. -/
theorem dispatch_guard_and_step_witness :
    (dispatchStep ⟨fwDemo, [], 0⟩).inflight = [] ++ [fwDemo] ∧
    (dispatchStep ⟨fwDemo, [], 0⟩).nextFetch = fwDemo.Next :=
  ⟨(dispatch_guard_and_step ⟨fwDemo, [], 0⟩ 5000000 0).2.1,
   (dispatch_guard_and_step ⟨fwDemo, [], 0⟩ 5000000 0).2.2.1⟩

/-- Claim C9: a context cancellation during the send of the fetch request
yields an empty, error-free fetchResult: no records, zero fetched bytes, and
no error to classify. -/
theorem fetchSingle_cancellation_empty_no_error (leaderID leaderEpoch : Int)
    (h : ¬(leaderID = -1 ∧ leaderEpoch = -1)) :
    fetchSingle false leaderID leaderEpoch .canceled = newEmptyFetchResult none ∧
    (fetchSingle false leaderID leaderEpoch .canceled).records = [] ∧
    (fetchSingle false leaderID leaderEpoch .canceled).fetchedBytes = 0 ∧
    (fetchSingle false leaderID leaderEpoch .canceled).err = none := by
  have heq : fetchSingle false leaderID leaderEpoch .canceled = newEmptyFetchResult none := by
    simp [fetchSingle, h]
  exact ⟨heq, by rw [heq]; rfl, by rw [heq]; rfl, by rw [heq]; rfl⟩

/-- Witness for C9 with a resolved leader. -/
theorem fetchSingle_cancellation_empty_no_error_witness :
    ¬((1 : Int) = -1 ∧ (0 : Int) = -1) ∧
    fetchSingle false 1 0 .canceled = newEmptyFetchResult none :=
  ⟨by decide, (fetchSingle_cancellation_empty_no_error 1 0 (by decide)).1⟩

/-- Claim C10: a worker attempt publishes a result on the want's channel only
when the merged record set is non-empty, and whenever it consults
`UpdateBytesPerRecord` the record count passed is at least 1; the
dispatcher's drain-side estimator update likewise passes a count of at least
1 for any non-empty drained result, so the bytes-per-record division never
divides by zero. -/
theorem workerAttempt_publishes_nonempty (w : fetchWant) (previousResult fetched : fetchResult)
    (pso : Except Unit Int) :
    (∀ fr, (workerAttempt w previousResult fetched pso).publish = some fr → fr.records ≠ []) ∧
    (∀ b n, (workerAttempt w previousResult fetched pso).estimatorUpdate = some (b, n) → 1 ≤ n) ∧
    (∀ (nf : fetchWant) (res : fetchResult), res.records ≠ [] →
      dispatcherDrainUpdate nf res =
        nf.UpdateBytesPerRecord res.fetchedBytes (res.records.length : Int) ∧
      1 ≤ res.records.length) := by
  have hne : ∀ (l : List KRecord) (r : KRecord), l.getLast? = some r → l ≠ [] := by
    intro l r hl hnil
    rw [hnil] at hl
    simp at hl
  refine ⟨?_, ?_, ?_⟩
  · intro fr hfr
    cases hlast : (fetched.Merge previousResult).records.getLast? with
    | none => simp [workerAttempt, hlast] at hfr
    | some lr =>
      simp only [workerAttempt, hlast, Option.some.injEq] at hfr
      rw [← hfr]
      exact hne _ _ hlast
  · intro b n hbn
    cases hlast : (fetched.Merge previousResult).records.getLast? with
    | none => simp [workerAttempt, hlast] at hbn
    | some lr =>
      simp only [workerAttempt, hlast, Option.some.injEq, Prod.mk.injEq] at hbn
      rw [← hbn.2]
      exact List.length_pos.mpr (hne _ _ hlast)
  · intro nf res h
    exact ⟨rfl, List.length_pos.mpr h⟩

/-- Witness for C10 at a concrete attempt that publishes one record. -/
theorem workerAttempt_publishes_nonempty_witness :
    (workerAttempt fwDemo (newEmptyFetchResult none) ⟨[⟨5, 10⟩], none, 100, 5⟩
      (.error ())).publish = some mergedDemo ∧
    mergedDemo.records ≠ [] ∧ 1 ≤ mergedDemo.records.length :=
  ⟨rfl,
   (workerAttempt_publishes_nonempty fwDemo (newEmptyFetchResult none) ⟨[⟨5, 10⟩], none, 100, 5⟩
     (.error ())).1 mergedDemo rfl,
   ((workerAttempt_publishes_nonempty fwDemo (newEmptyFetchResult none) ⟨[⟨5, 10⟩], none, 100, 5⟩
     (.error ())).2.2 fwDemo mergedDemo (by decide)).2⟩

end IngestFetcher
